import Mathlib

/-!
A shallow embedding of the `tic` Receiver (src/receiver.rs) and Meters
(src/meters.rs), together with models of the stat-store collaborators from
the `data` crate, which is not part of the sources at hand.  The Rust code
is generic over a channel key type `T : Hash + Eq + Send + Display + Clone`;
following the design notes we monomorphize `T` to `String`.
-/

set_option autoImplicit false

namespace Tic

/-- Channel keys: the monomorphization of the Rust type parameter `T`. -/
abbrev Channel := String

/-- `Percentile` is the tuple struct `Percentile(String, f64)`: a label and a
quantile.  The quantile (an `f64` in the source) is modelled as a rational. -/
structure Percentile where
  label : String
  quantile : ℚ
deriving DecidableEq

/-- The `Interest` enum: a standing subscription for one statistic on one
channel.  `Trace` and `Waterfall` also carry an output file path. -/
inductive Interest where
  | Count : Channel → Interest
  | Percentile : Channel → Interest
  | AllanDeviation : Channel → Interest
  | Trace : Channel → String → Interest
  | Waterfall : Channel → String → Interest
deriving DecidableEq

/-- Hash maps keyed by channel are modelled as association lists. -/
abbrev StoreMap (V : Type) := List (Channel × V)

/-- Lookup of a key in a map. -/
def storeLookup {V : Type} (k : Channel) : StoreMap V → Option V
  | [] => none
  | (k', v) :: t => if k' = k then some v else storeLookup k t

/-- Removal of a key from a map. -/
def storeRemove {V : Type} (k : Channel) : StoreMap V → StoreMap V
  | [] => []
  | (k', v) :: t => if k' = k then storeRemove k t else (k', v) :: storeRemove k t

/-- Insertion of a binding into a map, replacing any previous binding. -/
def storeInsert {V : Type} (k : Channel) (v : V) (m : StoreMap V) : StoreMap V :=
  (k, v) :: storeRemove k m

/-- Value update at a key; a missing key leaves the map unchanged, which is the
silently-ignore behaviour of the stat stores for uninitialized channels. -/
def storeUpdate {V : Type} (k : Channel) (f : V → V) : StoreMap V → StoreMap V
  | [] => []
  | (k', v) :: t =>
      if k' = k then (k', f v) :: storeUpdate k f t else (k', v) :: storeUpdate k f t

/-- Resetting every channel of a map to a default value, keeping the channels
initialized. -/
def storeClearVals {V : Type} (d : V) (m : StoreMap V) : StoreMap V :=
  m.map (fun p => (p.1, d))

/-- Modelled from the spec: the `Allans` stat store of the `data` crate (not
under src/).  It keeps, per initialized channel, the full history of recorded
`dt` values (in nanoseconds, an `f64` modelled as a rational). -/
abbrev Allans := StoreMap (List ℚ)

/-- Modelled from the spec: `Allans::init` initializes the per-channel store. -/
def Allans.init (a : Allans) (k : Channel) : Allans := storeInsert k [] a

/-- Modelled from the spec: `Allans::remove` tears the per-channel store down. -/
def Allans.remove (a : Allans) (k : Channel) : Allans := storeRemove k a

/-- Modelled from the spec: `Allans::record` appends a `dt` reading for an
initialized channel and silently ignores uninitialized channels. -/
def Allans.record (a : Allans) (k : Channel) (dt : ℚ) : Allans :=
  storeUpdate k (fun l => l ++ [dt]) a

/-- Modelled from the spec: `Allans::adev` is defined only when the channel is
initialized and holds more than `tau` samples; the numeric value stands in for
the Allan deviation at lag `tau`. -/
def Allans.adev (a : Allans) (k : Channel) (tau : ℕ) : Option ℚ :=
  match storeLookup k a with
  | none => none
  | some l =>
      if l.length ≤ tau then none
      else some ((((l.drop tau).zip l).foldl (fun acc q => acc + (q.1 - q.2) ^ 2) 0) /
        (2 * (tau : ℚ) ^ 2 * ((l.length : ℚ) - tau)))

/-- Modelled from the spec: the `Counters` stat store, a map from initialized
channels to monotonic lifetime totals. -/
abbrev Counters := StoreMap ℕ

/-- Modelled from the spec: `Counters::init` initializes the channel at 0. -/
def Counters.init (c : Counters) (k : Channel) : Counters := storeInsert k 0 c

/-- Modelled from the spec: `Counters::remove` tears the channel down. -/
def Counters.remove (c : Counters) (k : Channel) : Counters := storeRemove k c

/-- Modelled from the spec: `Counters::increment_by` adds to an initialized
channel and silently ignores uninitialized channels. -/
def Counters.increment_by (c : Counters) (k : Channel) (n : ℕ) : Counters :=
  storeUpdate k (fun v => v + n) c

/-- Modelled from the spec: `Counters::count` reads the total for a channel. -/
def Counters.count (c : Counters) (k : Channel) : ℕ :=
  (storeLookup k c).getD 0

/-- Modelled from the spec: the `Histograms` stat store; per initialized
channel, the multiset of recorded nanosecond values of the current window. -/
abbrev Histograms := StoreMap (List ℕ)

/-- Modelled from the spec: `Histograms::init`. -/
def Histograms.init (h : Histograms) (k : Channel) : Histograms := storeInsert k [] h

/-- Modelled from the spec: `Histograms::remove`. -/
def Histograms.remove (h : Histograms) (k : Channel) : Histograms := storeRemove k h

/-- Modelled from the spec: `Histograms::increment` records a value for an
initialized channel and silently ignores uninitialized channels. -/
def Histograms.increment (h : Histograms) (k : Channel) (v : ℕ) : Histograms :=
  storeUpdate k (fun l => l ++ [v]) h

/-- Modelled from the spec: `Histograms::clear` discards the samples of every
channel but keeps the channels initialized. -/
def Histograms.clear (h : Histograms) : Histograms := storeClearVals [] h

/-- Insertion into a sorted list, used by the nearest-rank statistic. -/
def insertSorted (x : ℕ) : List ℕ → List ℕ
  | [] => [x]
  | y :: ys => if x ≤ y then x :: y :: ys else y :: insertSorted x ys

/-- Insertion sort, used by the nearest-rank statistic. -/
def sortList (l : List ℕ) : List ℕ := l.foldr insertSorted []

/-- Modelled from the spec: `Histograms::percentile` yields no value when the
channel is uninitialized or holds no samples, and otherwise a nearest-rank
statistic of the recorded values (integer nanoseconds). -/
def Histograms.percentile (h : Histograms) (k : Channel) (q : ℚ) : Option ℕ :=
  match storeLookup k h with
  | none => none
  | some [] => none
  | some (x :: xs) =>
      some ((sortList (x :: xs)).getD
        (min xs.length (Int.toNat ⌈q * (xs.length + 1 : ℚ)⌉ - 1)) 0)

/-- Modelled from the spec: the `Heatmaps` stat store; per initialized channel,
the recorded `(t0, dt)` pairs of the current run. -/
abbrev Heatmaps := StoreMap (List (ℕ × ℕ))

/-- Modelled from the spec: `Heatmaps::init`. -/
def Heatmaps.init (h : Heatmaps) (k : Channel) : Heatmaps := storeInsert k [] h

/-- Modelled from the spec: `Heatmaps::remove`. -/
def Heatmaps.remove (h : Heatmaps) (k : Channel) : Heatmaps := storeRemove k h

/-- Modelled from the spec: `Heatmaps::increment` records a `(t0, dt)` pair for
an initialized channel and silently ignores uninitialized channels. -/
def Heatmaps.increment (h : Heatmaps) (k : Channel) (t0 dt : ℕ) : Heatmaps :=
  storeUpdate k (fun l => l ++ [(t0, dt)]) h

/-- Modelled from the spec: `Heatmaps::clear` discards the data of every
channel but keeps the channels initialized. -/
def Heatmaps.clear (h : Heatmaps) : Heatmaps := storeClearVals [] h

/-- `Meters` (src/meters.rs): two flat string-keyed maps, `data` for `u64`
values and `data_float` for `f64` values (modelled as rationals). -/
structure Meters where
  data : List (String × ℕ)
  data_float : List (String × ℚ)
deriving DecidableEq

/-- `Meters::new` with both maps empty. -/
def Meters.new : Meters := ⟨[], []⟩

/-- The key written by `Meters::set_count`. -/
def countKey (channel : Channel) : String := channel ++ "_count"

/-- The key written by `Meters::set_percentile`. -/
def percKey (channel : Channel) (p : Percentile) : String :=
  channel ++ "_" ++ p.label ++ "_nanoseconds"

/-- The key written by `Meters::set_adev`. -/
def adevKey (channel : Channel) (tau : ℕ) : String :=
  channel ++ "_tau_" ++ toString tau ++ "_adev"

/-- `Meters::set_count`. -/
def Meters.set_count (m : Meters) (channel : Channel) (value : ℕ) : Meters :=
  { m with data := storeInsert (countKey channel) value m.data }

/-- `Meters::set_percentile`. -/
def Meters.set_percentile (m : Meters) (channel : Channel) (p : Percentile)
    (value : ℕ) : Meters :=
  { m with data := storeInsert (percKey channel p) value m.data }

/-- `Meters::set_adev`. -/
def Meters.set_adev (m : Meters) (channel : Channel) (tau : ℕ) (value : ℚ) :
    Meters :=
  { m with data_float := storeInsert (adevKey channel tau) value m.data_float }

/-- A `Sample` as consumed by the Receiver: channel, start and stop ticks and a
count (`start`, `stop`, `count` are `u64` in the source). -/
structure Sample where
  metric : Channel
  start : ℕ
  stop : ℕ
  count : ℕ
deriving DecidableEq

/-- `Clocksource::convert`: ticks to nanoseconds, a multiplication by the
nanoseconds-per-tick factor (an `f64`, modelled as a rational). -/
def convert (nsPerTick : ℚ) (t : ℕ) : ℚ := t * nsPerTick

/-- The Rust `as u64` cast of a nonnegative-or-negative `f64`: truncation
toward zero, saturating at the bounds of `u64`. -/
def ratToU64 (x : ℚ) : ℕ :=
  if x < 0 then 0 else min (2 ^ 64 - 1) (Int.toNat ⌊x⌋)

/-- The mutable state of a `Receiver` (the queue and I/O handles aside):
window bookkeeping in ticks, the four stat stores, the meters, the interest
set, and the configured taus and percentiles. -/
structure Receiver where
  window_time : ℕ
  window_duration : ℕ
  end_time : ℕ
  run_duration : ℕ
  allans : Allans
  counters : Counters
  histograms : Histograms
  meters : Meters
  interests : List Interest
  taus : List ℕ
  percentiles : List Percentile
  heatmaps : Heatmaps
deriving DecidableEq

/-- `HashSet::insert`: the interest set keeps at most one copy of a value. -/
def setInsert (i : Interest) (s : List Interest) : List Interest :=
  if i ∈ s then s else i :: s

/-- `HashSet::remove`: drops the value from the interest set. -/
def setRemove (i : Interest) (s : List Interest) : List Interest :=
  s.filter (fun j => j ≠ i)

/-- `Receiver::add_interest`: initialize the stat store matching the variant,
then insert the interest into the set. -/
def add_interest (r : Receiver) (interest : Interest) : Receiver :=
  let r' :=
    match interest with
    | .AllanDeviation key => { r with allans := r.allans.init key }
    | .Count key => { r with counters := r.counters.init key }
    | .Percentile key => { r with histograms := r.histograms.init key }
    | .Trace key _ => { r with heatmaps := r.heatmaps.init key }
    | .Waterfall key _ => { r with heatmaps := r.heatmaps.init key }
  { r' with interests := setInsert interest r'.interests }

/-- `Receiver::remove_interest`: remove the per-channel stat store matching
the variant, then remove the interest from the set. -/
def remove_interest (r : Receiver) (interest : Interest) : Receiver :=
  let r' :=
    match interest with
    | .AllanDeviation key => { r with allans := r.allans.remove key }
    | .Count key => { r with counters := r.counters.remove key }
    | .Percentile key => { r with histograms := r.histograms.remove key }
    | .Trace key _ => { r with heatmaps := r.heatmaps.remove key }
    | .Waterfall key _ => { r with heatmaps := r.heatmaps.remove key }
  { r' with interests := setRemove interest r'.interests }

/-- The per-sample body of the `TOKEN_DATA` arm of `Receiver::run_once`:
convert both ticks, take the difference, then dispatch to the Allans,
Counters, Histograms and Heatmaps stores in that order, unconditionally. -/
def processSample (nsPerTick : ℚ) (r : Receiver) (result : Sample) : Receiver :=
  let t0 := convert nsPerTick result.start
  let t1 := convert nsPerTick result.stop
  let dt := t1 - t0
  let r1 := { r with allans := r.allans.record result.metric dt }
  let r2 := { r1 with counters := r1.counters.increment_by result.metric result.count }
  let r3 := { r2 with histograms := r2.histograms.increment result.metric (ratToU64 dt) }
  { r3 with heatmaps := r3.heatmaps.increment result.metric (ratToU64 t0) (ratToU64 dt) }

/-- A batch: a `Vec<Sample>` with its preallocated capacity. -/
structure Batch where
  data : List Sample
  capacity : ℕ
deriving DecidableEq

/-- `Vec::clear`: length zero, capacity intact. -/
def Batch.clear (b : Batch) : Batch := { b with data := [] }

/-- The bounded mpmc queue used as the empty-batch pool. -/
structure BoundedQueue where
  items : List Batch
  capacity : ℕ
deriving DecidableEq

/-- `Queue::push`: appends when the queue has room and reports success;
returns the queue unchanged and reports failure when it is full. -/
def BoundedQueue.push (q : BoundedQueue) (b : Batch) : BoundedQueue × Bool :=
  if q.items.length < q.capacity then ({ q with items := q.items ++ [b] }, true)
  else (q, false)

/-- The `TOKEN_DATA` arm of `Receiver::run_once` for one drained batch:
process every sample in order, clear the batch, and push it onto the empty
pool discarding the result. -/
def processBatch (nsPerTick : ℚ) (r : Receiver) (q : BoundedQueue) (results : Batch) :
    Receiver × BoundedQueue :=
  let r' := results.data.foldl (processSample nsPerTick) r
  let results' := results.clear
  (r', (q.push results').1)

/-- The inner loop of the `Interest::Percentile` arm of
`Receiver::check_elapsed`: for every configured percentile, write the
histogram percentile reading, defaulting to 0 when there is none. -/
def renderPercentiles (histograms : Histograms) (key : Channel)
    (ps : List Percentile) (m : Meters) : Meters :=
  ps.foldl
    (fun m' p => m'.set_percentile key p ((histograms.percentile key p.quantile).getD 0)) m

/-- The inner loop of the `Interest::AllanDeviation` arm of
`Receiver::check_elapsed`: for every configured tau, write the Allan
deviation when it is defined and skip the key otherwise. -/
def renderAdevs (allans : Allans) (key : Channel) (ts : List ℕ) (m : Meters) :
    Meters :=
  ts.foldl
    (fun m' tau =>
      match allans.adev key tau with
      | some adev => m'.set_adev key tau adev
      | none => m') m

/-- The rendering of a single interest inside `Receiver::check_elapsed`. -/
def renderInterest (percentiles : List Percentile) (taus : List ℕ)
    (counters : Counters) (histograms : Histograms) (allans : Allans)
    (m : Meters) (interest : Interest) : Meters :=
  match interest with
  | .Count key => m.set_count key (counters.count key)
  | .Percentile key => renderPercentiles histograms key percentiles m
  | .AllanDeviation key => renderAdevs allans key taus m
  | .Trace _ _ => m
  | .Waterfall _ _ => m

/-- `Receiver::check_elapsed` with the clocksource counter reading `tsc`
passed explicitly: when the window has elapsed, render every interest into
the meters, clear the histograms, advance the window end tick by one window
duration, and report `true`; otherwise report `false` and change nothing. -/
def check_elapsed (tsc : ℕ) (r : Receiver) (t1 : ℕ) : Bool × Receiver :=
  if t1 ≤ tsc then
    (true,
      { r with
        meters :=
          r.interests.foldl
            (renderInterest r.percentiles r.taus r.counters r.histograms r.allans)
            r.meters
        histograms := r.histograms.clear
        window_time := r.window_time + r.window_duration })
  else (false, r)

/-- `Receiver::handle_http`: `/vars` and `/metrics` get the plain-text
format, any other path gets the single-line JSON object whose final character
is popped before the closing brace is appended.  `showF` stands for the
`Display` rendering of `f64` values. -/
def handle_http (showF : ℚ → String) (m : Meters) (url : String) : String :=
  if url = "/vars" ∨ url = "/metrics" then
    let out := m.data.foldl (fun out p => out ++ p.1 ++ " " ++ toString p.2 ++ "\n") ""
    m.data_float.foldl (fun out p => out ++ p.1 ++ " " ++ showF p.2 ++ "\n") out
  else
    let out := "\x7b"
    let out := m.data.foldl
      (fun out p => out ++ "\x22" ++ p.1 ++ "\x22:" ++ toString p.2 ++ ",") out
    let out := m.data_float.foldl
      (fun out p => out ++ "\x22" ++ p.1 ++ "\x22:" ++ showF p.2 ++ ",") out
    let out := out.dropRight 1
    out ++ "\x7d"

/-- The window duration in ticks as computed by `Receiver::configured`:
`(config.duration as f64 * clocksource.frequency()) as u64`. -/
def window_duration (duration : ℕ) (frequency : ℚ) : ℕ :=
  ratToU64 (duration * frequency)

/-- The run duration in ticks as computed by `Receiver::configured`:
`config.windows as u64 * window_duration`. -/
def run_duration (windows duration : ℕ) (frequency : ℚ) : ℕ :=
  windows * window_duration duration frequency

/-- The number of `run_once` calls performed by the inner loop of
`Receiver::run` when entered with window counter `w`: the loop body runs
`run_once`, increments the counter, and exits once the counter has reached
`windows`. -/
def innerCalls (windows w : ℕ) : ℕ :=
  if h : windows ≤ w + 1 then 1 else 1 + innerCalls windows (w + 1)
termination_by windows - w
decreasing_by omega

/-- The numbers of `run_once` calls of the first `k` outer iterations of
`Receiver::run` in service mode, starting from window counter `w`; the
counter is never reset between outer iterations. -/
def runCounts (windows : ℕ) : ℕ → ℕ → List ℕ
  | _, 0 => []
  | w, k + 1 => innerCalls windows w :: runCounts windows (w + innerCalls windows w) k

/-- The spec's claimed formula for the window duration, following its words:
`round(duration_seconds × clock_frequency_Hz)` (Rust `f64::round`, half away
from zero; the product is nonnegative). -/
def window_duration_spec_round (duration : ℕ) (frequency : ℚ) : ℕ :=
  Int.toNat ⌊(duration : ℚ) * frequency + 1 / 2⌋

/-- Whether the stat store matching the interest's variant has an entry for
its channel. -/
def storeHasEntry (r : Receiver) : Interest → Bool
  | .Count k => (storeLookup k r.counters).isSome
  | .Percentile k => (storeLookup k r.histograms).isSome
  | .AllanDeviation k => (storeLookup k r.allans).isSome
  | .Trace k _ => (storeLookup k r.heatmaps).isSome
  | .Waterfall k _ => (storeLookup k r.heatmaps).isSome

/-- The claimed invariant: every interest in the set has an initialized entry
in its stat store. -/
def interestInvariant (r : Receiver) : Prop :=
  ∀ i ∈ r.interests, storeHasEntry r i = true

instance (r : Receiver) : Decidable (interestInvariant r) := by
  unfold interestInvariant
  infer_instance

/-- A small concrete receiver used to instantiate general theorems. -/
def receiver0 : Receiver :=
  { window_time := 10, window_duration := 5, end_time := 20, run_duration := 10,
    allans := [], counters := [], histograms := [], meters := Meters.new,
    interests := [], taus := [], percentiles := [], heatmaps := [] }

theorem storeLookup_remove_self {V : Type} (k : Channel) (m : StoreMap V) :
    storeLookup k (storeRemove k m) = none := by
  induction m with
  | nil => rfl
  | cons p t ih =>
      obtain ⟨k', v⟩ := p
      by_cases h : k' = k <;> simp [storeRemove, storeLookup, h, ih]

theorem storeLookup_remove_ne {V : Type} {k k' : Channel} (h : k ≠ k')
    (m : StoreMap V) : storeLookup k' (storeRemove k m) = storeLookup k' m := by
  induction m with
  | nil => rfl
  | cons p t ih =>
      obtain ⟨k'', v⟩ := p
      by_cases h1 : k'' = k
      · subst h1
        simp [storeRemove, storeLookup, h, ih]
      · by_cases h2 : k'' = k' <;> simp [storeRemove, storeLookup, h1, h2, ih, Ne.symm h]

theorem storeLookup_insert_self {V : Type} (k : Channel) (v : V) (m : StoreMap V) :
    storeLookup k (storeInsert k v m) = some v := by
  simp [storeInsert, storeLookup]

theorem storeLookup_insert_ne {V : Type} {k k' : Channel} (h : k ≠ k') (v : V)
    (m : StoreMap V) : storeLookup k' (storeInsert k v m) = storeLookup k' m := by
  simp [storeInsert, storeLookup, h, storeLookup_remove_ne h]

theorem isSome_storeLookup_insert {V : Type} (k k' : Channel) (v : V)
    (m : StoreMap V) (h : (storeLookup k' m).isSome = true) :
    (storeLookup k' (storeInsert k v m)).isSome = true := by
  by_cases hk : k = k'
  · subst hk
    simp [storeLookup_insert_self]
  · rw [storeLookup_insert_ne hk]
    exact h

theorem storeRemove_remove {V : Type} (k : Channel) (m : StoreMap V) :
    storeRemove k (storeRemove k m) = storeRemove k m := by
  induction m with
  | nil => rfl
  | cons p t ih =>
      obtain ⟨k', v⟩ := p
      by_cases h : k' = k <;> simp [storeRemove, h, ih]

theorem storeInsert_insert {V : Type} (k : Channel) (v : V) (m : StoreMap V) :
    storeInsert k v (storeInsert k v m) = storeInsert k v m := by
  simp [storeInsert, storeRemove, storeRemove_remove]

theorem setInsert_setInsert (i : Interest) (s : List Interest) :
    setInsert i (setInsert i s) = setInsert i s := by
  by_cases h : i ∈ s <;> simp [setInsert, h]

theorem isSome_storeLookup_insert_eq {V : Type} (k k' : Channel) (v : V)
    (m : StoreMap V) :
    (storeLookup k' (storeInsert k v m)).isSome =
      (decide (k = k') || (storeLookup k' m).isSome) := by
  by_cases hk : k = k' <;> simp [hk, storeLookup_insert_self, storeLookup_insert_ne]

theorem storeHasEntry_add_self (r : Receiver) (i : Interest) :
    storeHasEntry (add_interest r i) i = true := by
  cases i <;>
    simp [storeHasEntry, add_interest, Allans.init, Counters.init, Histograms.init,
      Heatmaps.init, storeLookup_insert_self]

theorem storeHasEntry_add_mono (r : Receiver) (i j : Interest)
    (h : storeHasEntry r j = true) : storeHasEntry (add_interest r i) j = true := by
  cases i <;> cases j <;>
    simp_all [storeHasEntry, add_interest, Allans.init, Counters.init,
      Histograms.init, Heatmaps.init, isSome_storeLookup_insert_eq]

theorem interests_add (r : Receiver) (i : Interest) :
    (add_interest r i).interests = setInsert i r.interests := by
  cases i <;> rfl

theorem interestInvariant_add (r : Receiver) (i : Interest)
    (h : interestInvariant r) : interestInvariant (add_interest r i) := by
  intro j hj
  rw [interests_add] at hj
  have hmem : j = i ∨ j ∈ r.interests := by
    unfold setInsert at hj
    by_cases hc : i ∈ r.interests
    · rw [if_pos hc] at hj
      exact Or.inr hj
    · rw [if_neg hc] at hj
      rcases List.mem_cons.mp hj with h1 | h1
      · exact Or.inl h1
      · exact Or.inr h1
  rcases hmem with rfl | hmem
  · exact storeHasEntry_add_self r j
  · exact storeHasEntry_add_mono r i j (h j hmem)

theorem interestInvariant_foldl (adds : List Interest) :
    ∀ r : Receiver, interestInvariant r →
      interestInvariant (List.foldl add_interest r adds) := by
  induction adds with
  | nil => exact fun r h => h
  | cons a t ih => exact fun r h => ih _ (interestInvariant_add r a h)

theorem storeHasEntry_remove_self (r : Receiver) (i : Interest) :
    storeHasEntry (remove_interest r i) i = false := by
  cases i <;>
    simp [storeHasEntry, remove_interest, Allans.remove, Counters.remove,
      Histograms.remove, Heatmaps.remove, storeLookup_remove_self]

/-- C1 (code bug witnessed on the model of `Receiver::run`): with
`config.windows = 2` in service mode, the first run performs 2 iterations of
`run_once` but the second performs only 1, because the `window` counter is
never reset between outer iterations; the claim (and the spec) say every run
performs `config.windows` iterations, i.e. the counts would be
`List.replicate 2 2`. -/
theorem run_window_counts_service_mode :
    runCounts 2 0 2 = [2, 1] ∧ runCounts 2 0 2 ≠ List.replicate 2 2 := by
  have h : runCounts 2 0 2 = [2, 1] := by simp [runCounts, innerCalls]
  refine ⟨h, ?_⟩
  rw [h]
  decide

/-- C2 (code bug witnessed on the model of `Receiver::handle_http`): for a
path other than `/vars` and `/metrics`, when both meter maps are empty the
unconditional `output.pop()` removes the opening brace, so the body is the
single character right-brace rather than the empty JSON object claimed. -/
theorem handle_http_empty_meters :
    handle_http (fun _ => "") Meters.new "/" = "\x7d" ∧
      "\x7d" ≠ "\x7b\x7d" := by
  decide

/-- C3 counterexample: at `config.duration = 1` and clocksource frequency
2.7 Hz, the code's `(duration as f64 * frequency) as u64` yields 2 (truncation
toward zero) while the claimed `round(duration × frequency)` yields 3. -/
theorem window_duration_round_counterexample :
    window_duration 1 (27 / 10) = 2 ∧ window_duration_spec_round 1 (27 / 10) = 3 := by
  constructor
  · norm_num [window_duration, ratToU64]
    decide
  · norm_num [window_duration_spec_round]
    decide

/-- C3 (amended): at Receiver construction the window duration in ticks is
the truncation toward zero (not the rounding) of `config.duration` times the
clocksource frequency, and the run duration in ticks is `config.windows`
times the window duration. -/
theorem window_duration_truncates (duration windows : ℕ) (frequency : ℚ)
    (h0 : 0 ≤ frequency) (h1 : (duration : ℚ) * frequency ≤ 2 ^ 64 - 1) :
    window_duration duration frequency = Int.toNat ⌊(duration : ℚ) * frequency⌋ ∧
      run_duration windows duration frequency =
        windows * window_duration duration frequency := by
  refine ⟨?_, rfl⟩
  unfold window_duration ratToU64
  have hx : ¬((duration : ℚ) * frequency < 0) :=
    not_lt.mpr (mul_nonneg (Nat.cast_nonneg duration) h0)
  rw [if_neg hx]
  refine min_eq_right ?_
  have hfl : ⌊(duration : ℚ) * frequency⌋ ≤ (2 ^ 64 - 1 : ℤ) := by
    have h2 : ((duration : ℚ)) * frequency ≤ ((2 ^ 64 - 1 : ℤ) : ℚ) := by
      refine le_trans h1 ?_
      norm_num
    calc ⌊(duration : ℚ) * frequency⌋ ≤ ⌊((2 ^ 64 - 1 : ℤ) : ℚ)⌋ :=
          Int.floor_le_floor h2
      _ = (2 ^ 64 - 1 : ℤ) := Int.floor_intCast _
  omega

/-- Witness for C3: the amended theorem instantiated at duration 1,
3 windows and frequency 2.7. -/
theorem window_duration_truncates_witness :
    window_duration 1 (27 / 10) = Int.toNat ⌊(1 : ℚ) * (27 / 10)⌋ ∧
      run_duration 3 1 (27 / 10) = 3 * window_duration 1 (27 / 10) :=
  window_duration_truncates 1 3 (27 / 10) (by norm_num) (by norm_num)

/-- C4 counterexample: add `Trace "k" "a"` and `Waterfall "k" "b"`, then
remove `Trace "k" "a"`: the heatmap entry for channel `"k"` is torn down even
though `Waterfall "k" "b"` is still in the interest set, so the claimed
invariant fails after this add/remove sequence. -/
theorem interest_invariant_counterexample :
    ¬ interestInvariant
        (remove_interest
          (add_interest (add_interest receiver0 (Interest.Trace "k" "a"))
            (Interest.Waterfall "k" "b"))
          (Interest.Trace "k" "a")) := by
  decide

/-- C4 (amended): after any sequence of `add_interest` calls from a state
satisfying the invariant, every interest in the set has an initialized entry
in its stat store; and `remove_interest(i)` removes the store entry for `i`'s
channel unconditionally — even when another Trace/Waterfall interest for the
same channel remains in the set, which is what breaks the claimed invariant
for sequences mixing adds and removes. -/
theorem add_invariant_and_remove_clears_entry :
    (∀ (r : Receiver) (adds : List Interest), interestInvariant r →
        interestInvariant (List.foldl add_interest r adds)) ∧
      ∀ (r : Receiver) (i : Interest), storeHasEntry (remove_interest r i) i = false :=
  ⟨fun r adds h => interestInvariant_foldl adds r h, storeHasEntry_remove_self⟩

/-- Witness for C4: the amended theorem instantiated at a concrete receiver
and a concrete add sequence. -/
theorem add_invariant_and_remove_clears_entry_witness :
    interestInvariant (List.foldl add_interest receiver0
      [Interest.Count "a", Interest.Trace "b" "f", Interest.Count "a"]) :=
  add_invariant_and_remove_clears_entry.1 receiver0
    [Interest.Count "a", Interest.Trace "b" "f", Interest.Count "a"] (by decide)

/-- C9: `add_interest` is idempotent — adding the same interest twice in
succession leaves the interest set and all four stat stores exactly as a
single add does. -/
theorem add_interest_idempotent (r : Receiver) (i : Interest) :
    add_interest (add_interest r i) i = add_interest r i := by
  cases i <;>
    simp [add_interest, Allans.init, Counters.init, Histograms.init, Heatmaps.init,
      storeInsert_insert, setInsert_setInsert]

/-- C5: for every drained sample, the Receiver computes
`t0 = convert(start)`, `t1 = convert(stop)`, `dt = t1 - t0` and dispatches —
in the source order Allans, Counters, Histograms, Heatmaps — `dt` to the
Allan accumulator, the sample's count to the counter, `dt` (cast to `u64`)
to the histogram, and `(t0, dt)` (cast to `u64`) to the heatmap of the
sample's channel; and it does so regardless of the current interest set. -/
theorem processSample_dispatch (nsPerTick : ℚ) (r : Receiver) (s : Sample) :
    processSample nsPerTick r s =
      { r with
        allans := r.allans.record s.metric
          (convert nsPerTick s.stop - convert nsPerTick s.start)
        counters := r.counters.increment_by s.metric s.count
        histograms := r.histograms.increment s.metric
          (ratToU64 (convert nsPerTick s.stop - convert nsPerTick s.start))
        heatmaps := r.heatmaps.increment s.metric (ratToU64 (convert nsPerTick s.start))
          (ratToU64 (convert nsPerTick s.stop - convert nsPerTick s.start)) } ∧
    ∀ I : List Interest,
      processSample nsPerTick { r with interests := I } s =
        { processSample nsPerTick r s with interests := I } :=
  ⟨rfl, fun _ => rfl⟩

/-- C7: at a window boundary (counter at or past the window end tick),
`check_elapsed` reports `true`, clears all histograms (keeping their channels
initialized), advances the window end tick by exactly one window duration,
and leaves the counters, the Allan accumulators and the heatmaps
unmodified. -/
theorem check_elapsed_window_boundary (tsc t1 : ℕ) (r : Receiver)
    (h : t1 ≤ tsc) :
    (check_elapsed tsc r t1).1 = true ∧
    (check_elapsed tsc r t1).2.histograms = r.histograms.clear ∧
    (check_elapsed tsc r t1).2.window_time = r.window_time + r.window_duration ∧
    (check_elapsed tsc r t1).2.counters = r.counters ∧
    (check_elapsed tsc r t1).2.allans = r.allans ∧
    (check_elapsed tsc r t1).2.heatmaps = r.heatmaps := by
  simp [check_elapsed, h]

/-- Witness for C7 at a concrete elapsed window. -/
theorem check_elapsed_window_boundary_witness :
    (check_elapsed 5 receiver0 3).1 = true ∧
    (check_elapsed 5 receiver0 3).2.histograms = receiver0.histograms.clear ∧
    (check_elapsed 5 receiver0 3).2.window_time =
      receiver0.window_time + receiver0.window_duration ∧
    (check_elapsed 5 receiver0 3).2.counters = receiver0.counters ∧
    (check_elapsed 5 receiver0 3).2.allans = receiver0.allans ∧
    (check_elapsed 5 receiver0 3).2.heatmaps = receiver0.heatmaps :=
  check_elapsed_window_boundary 5 3 receiver0 (by decide)

/-- C8: processing a drained batch folds its samples into the stats in order,
then pushes the cleared batch — length 0, capacity intact — onto the empty
pool, and a push onto a full pool is silently discarded, leaving the pool and
the rest of the Receiver unaffected. -/
theorem processBatch_recycles_batch (nsPerTick : ℚ) (r : Receiver)
    (q : BoundedQueue) (b : Batch) :
    processBatch nsPerTick r q b =
      (b.data.foldl (processSample nsPerTick) r,
        (q.push { data := [], capacity := b.capacity }).1) ∧
    (b.clear.data = [] ∧ b.clear.capacity = b.capacity) ∧
    (q.capacity ≤ q.items.length → (processBatch nsPerTick r q b).2 = q) := by
  refine ⟨rfl, ⟨rfl, rfl⟩, fun hfull => ?_⟩
  simp [processBatch, BoundedQueue.push, Batch.clear, Nat.not_lt.mpr hfull]

/-- A pool that is already full: capacity 1, one batch queued. -/
def fullPool : BoundedQueue := ⟨[⟨[], 4⟩], 1⟩

/-- A concrete filled batch. -/
def batch0 : Batch := ⟨[⟨"a", 1, 3, 1⟩], 4⟩

/-- Witness for C8: pushing the recycled batch onto a full pool leaves the
pool unchanged. -/
theorem processBatch_recycles_batch_witness :
    (processBatch 1 receiver0 fullPool batch0).2 = fullPool :=
  (processBatch_recycles_batch 1 receiver0 fullPool batch0).2.2 (by decide)

/-- A malformed sample: `stop < start`. -/
def sampleNeg : Sample := ⟨"a", 5, 2, 1⟩

/-- C10: for a sample with `stop < start` the Receiver performs no
validation: the computed `dt` is negative, and the sample is dispatched
exactly as any other — the negative `dt` itself to the Allan accumulator and
its `u64` cast to the histograms and heatmaps. -/
theorem negative_dt_dispatch (nsPerTick : ℚ) (r : Receiver) (s : Sample)
    (hpos : 0 < nsPerTick) (hlt : s.stop < s.start) :
    convert nsPerTick s.stop - convert nsPerTick s.start < 0 ∧
    processSample nsPerTick r s =
      { r with
        allans := r.allans.record s.metric
          (convert nsPerTick s.stop - convert nsPerTick s.start)
        counters := r.counters.increment_by s.metric s.count
        histograms := r.histograms.increment s.metric
          (ratToU64 (convert nsPerTick s.stop - convert nsPerTick s.start))
        heatmaps := r.heatmaps.increment s.metric (ratToU64 (convert nsPerTick s.start))
          (ratToU64 (convert nsPerTick s.stop - convert nsPerTick s.start)) } := by
  refine ⟨?_, rfl⟩
  unfold convert
  have hq : (s.stop : ℚ) < (s.start : ℚ) := by exact_mod_cast hlt
  exact sub_neg.mpr (mul_lt_mul_of_pos_right hq hpos)

/-- Witness for C10 at a concrete malformed sample. -/
theorem negative_dt_dispatch_witness :
    convert 1 sampleNeg.stop - convert 1 sampleNeg.start < 0 ∧
    processSample 1 receiver0 sampleNeg =
      { receiver0 with
        allans := receiver0.allans.record sampleNeg.metric
          (convert 1 sampleNeg.stop - convert 1 sampleNeg.start)
        counters := receiver0.counters.increment_by sampleNeg.metric sampleNeg.count
        histograms := receiver0.histograms.increment sampleNeg.metric
          (ratToU64 (convert 1 sampleNeg.stop - convert 1 sampleNeg.start))
        heatmaps := receiver0.heatmaps.increment sampleNeg.metric
          (ratToU64 (convert 1 sampleNeg.start))
          (ratToU64 (convert 1 sampleNeg.stop - convert 1 sampleNeg.start)) } :=
  negative_dt_dispatch 1 receiver0 sampleNeg (by norm_num) (by decide)

theorem getLast?_data_append (s t : String) (c : Char)
    (h : t.data.getLast? = some c) : (s ++ t).data.getLast? = some c := by
  rw [String.data_append, List.getLast?_append, h]
  rfl

theorem countKey_ne_percKey (a k : Channel) (p : Percentile) :
    countKey a ≠ percKey k p := by
  intro h
  have h1 : (countKey a).data.getLast? = some 't' :=
    getLast?_data_append a "_count" 't' (by decide)
  have h2 : (percKey k p).data.getLast? = some 's' :=
    getLast?_data_append (k ++ "_" ++ p.label) "_nanoseconds" 's' (by decide)
  rw [h, h2] at h1
  exact absurd (Option.some.inj h1) (by decide)

theorem data_renderAdevs (allans : Allans) (k : Channel) (ts : List ℕ) :
    ∀ m : Meters, (renderAdevs allans k ts m).data = m.data := by
  induction ts with
  | nil => exact fun _ => rfl
  | cons t ts ih =>
      intro m
      rw [show renderAdevs allans k (t :: ts) m =
          renderAdevs allans k ts
            (match allans.adev k t with
             | some adev => m.set_adev k t adev
             | none => m) from rfl]
      rw [ih]
      cases allans.adev k t <;> rfl

theorem isSome_renderPercentiles (hs : Histograms) (k : Channel)
    (ps : List Percentile) (s : String) :
    ∀ m : Meters, (storeLookup s m.data).isSome = true →
      (storeLookup s (renderPercentiles hs k ps m).data).isSome = true := by
  induction ps with
  | nil => exact fun _ h => h
  | cons q t ih =>
      intro m h
      exact ih _ (isSome_storeLookup_insert (percKey k q) s _ m.data h)

theorem isSome_renderPercentiles_mem (hs : Histograms) (k : Channel)
    (p : Percentile) :
    ∀ ps : List Percentile, p ∈ ps → ∀ m : Meters,
      (storeLookup (percKey k p) (renderPercentiles hs k ps m).data).isSome = true := by
  intro ps
  induction ps with
  | nil => intro hp; cases hp
  | cons q t ih =>
      intro hp m
      rcases List.mem_cons.mp hp with h | h
      · subst h
        refine isSome_renderPercentiles hs k t _ _ ?_
        simp [Meters.set_percentile, storeLookup_insert_self]
      · exact ih h _

theorem isSome_renderFold (ps : List Percentile) (ts : List ℕ) (cs : Counters)
    (hs : Histograms) (allans : Allans) (s : String) :
    ∀ (L : List Interest) (m : Meters), (storeLookup s m.data).isSome = true →
      (storeLookup s (L.foldl (renderInterest ps ts cs hs allans) m).data).isSome = true := by
  intro L
  induction L with
  | nil => exact fun _ h => h
  | cons i t ih =>
      intro m h
      refine ih _ ?_
      cases i with
      | Count k' => exact isSome_storeLookup_insert (countKey k') s _ m.data h
      | Percentile k' => exact isSome_renderPercentiles hs k' ps s m h
      | AllanDeviation k' =>
          show (storeLookup s (renderAdevs allans k' ts m).data).isSome = true
          rw [data_renderAdevs]
          exact h
      | Trace k' f => exact h
      | Waterfall k' f => exact h

theorem isSome_renderFold_mem (ps : List Percentile) (ts : List ℕ) (cs : Counters)
    (hs : Histograms) (allans : Allans) (k : Channel) (p : Percentile)
    (hp : p ∈ ps) :
    ∀ L : List Interest, Interest.Percentile k ∈ L → ∀ m : Meters,
      (storeLookup (percKey k p)
        (L.foldl (renderInterest ps ts cs hs allans) m).data).isSome = true := by
  intro L
  induction L with
  | nil => intro hi; cases hi
  | cons i t ih =>
      intro hi m
      rcases List.mem_cons.mp hi with h | h
      · subst h
        exact isSome_renderFold ps ts cs hs allans (percKey k p) t _
          (isSome_renderPercentiles_mem hs k p ps hp m)
      · exact ih h _

theorem lookup_renderPercentiles_zero (hs : Histograms) (k : Channel) (s : String) :
    ∀ ps : List Percentile,
      (∀ p' ∈ ps, percKey k p' = s → (hs.percentile k p'.quantile).getD 0 = 0) →
      ∀ m : Meters, storeLookup s m.data = some 0 →
        storeLookup s (renderPercentiles hs k ps m).data = some 0 := by
  intro ps
  induction ps with
  | nil => exact fun _ _ h => h
  | cons q t ih =>
      intro hz m h
      refine ih (fun p' h1 h2 => hz p' (List.mem_cons_of_mem q h1) h2) _ ?_
      by_cases hqs : percKey k q = s
      · have hv := hz q (List.mem_cons_self q t) hqs
        show storeLookup s
          (storeInsert (percKey k q) ((hs.percentile k q.quantile).getD 0) m.data) = some 0
        rw [hqs, hv]
        exact storeLookup_insert_self s 0 m.data
      · show storeLookup s
          (storeInsert (percKey k q) ((hs.percentile k q.quantile).getD 0) m.data) = some 0
        rw [storeLookup_insert_ne hqs]
        exact h

theorem lookup_renderPercentiles_zero_mem (hs : Histograms) (k : Channel)
    (p : Percentile) :
    ∀ ps : List Percentile, p ∈ ps →
      (∀ p' ∈ ps, percKey k p' = percKey k p →
        (hs.percentile k p'.quantile).getD 0 = 0) →
      ∀ m : Meters,
        storeLookup (percKey k p) (renderPercentiles hs k ps m).data = some 0 := by
  intro ps
  induction ps with
  | nil => intro hp; cases hp
  | cons q t ih =>
      intro hp hz m
      by_cases hqs : percKey k q = percKey k p
      · have hv := hz q (List.mem_cons_self q t) hqs
        refine lookup_renderPercentiles_zero hs k (percKey k p) t
          (fun p' h1 h2 => hz p' (List.mem_cons_of_mem q h1) h2) _ ?_
        show storeLookup (percKey k p)
          (storeInsert (percKey k q) ((hs.percentile k q.quantile).getD 0) m.data) = some 0
        rw [hqs, hv]
        exact storeLookup_insert_self (percKey k p) 0 m.data
      · have hpt : p ∈ t := by
          rcases List.mem_cons.mp hp with h | h
          · exact absurd (congrArg (percKey k) h.symm) hqs
          · exact h
        exact ih hpt (fun p' h1 h2 => hz p' (List.mem_cons_of_mem q h1) h2) _

theorem lookup_renderFold_zero (ps : List Percentile) (ts : List ℕ) (cs : Counters)
    (hs : Histograms) (allans : Allans) (k : Channel) (p : Percentile) :
    ∀ L : List Interest,
      (∀ k' p', Interest.Percentile k' ∈ L → p' ∈ ps → percKey k' p' = percKey k p →
        (hs.percentile k' p'.quantile).getD 0 = 0) →
      ∀ m : Meters, storeLookup (percKey k p) m.data = some 0 →
        storeLookup (percKey k p)
          (L.foldl (renderInterest ps ts cs hs allans) m).data = some 0 := by
  intro L
  induction L with
  | nil => exact fun _ _ h => h
  | cons i t ih =>
      intro hz m h
      refine ih (fun k' p' h1 h2 h3 => hz k' p' (List.mem_cons_of_mem i h1) h2 h3) _ ?_
      cases i with
      | Count k' =>
          show storeLookup (percKey k p)
            (storeInsert (countKey k') (cs.count k') m.data) = some 0
          rw [storeLookup_insert_ne (countKey_ne_percKey k' k p)]
          exact h
      | Percentile k' =>
          exact lookup_renderPercentiles_zero hs k' (percKey k p) ps
            (fun p' h1 h2 => hz k' p' (List.mem_cons_self _ _) h1 h2) m h
      | AllanDeviation k' =>
          show storeLookup (percKey k p) (renderAdevs allans k' ts m).data = some 0
          rw [data_renderAdevs]
          exact h
      | Trace k' f => exact h
      | Waterfall k' f => exact h

theorem lookup_renderFold_zero_mem (ps : List Percentile) (ts : List ℕ)
    (cs : Counters) (hs : Histograms) (allans : Allans) (k : Channel)
    (p : Percentile) (hp : p ∈ ps) :
    ∀ L : List Interest, Interest.Percentile k ∈ L →
      (∀ k' p', Interest.Percentile k' ∈ L → p' ∈ ps → percKey k' p' = percKey k p →
        (hs.percentile k' p'.quantile).getD 0 = 0) →
      ∀ m : Meters,
        storeLookup (percKey k p)
          (L.foldl (renderInterest ps ts cs hs allans) m).data = some 0 := by
  intro L
  induction L with
  | nil => intro hi; cases hi
  | cons i t ih =>
      intro hi hz m
      rcases List.mem_cons.mp hi with h | h
      · subst h
        refine lookup_renderFold_zero ps ts cs hs allans k p t
          (fun k' p' h1 h2 h3 => hz k' p' (List.mem_cons_of_mem _ h1) h2 h3) _ ?_
        exact lookup_renderPercentiles_zero_mem hs k p ps hp
          (fun p' h1 h2 => hz k p' (List.mem_cons_self _ _) h1 h2) m
      · exact ih h (fun k' p' h1 h2 h3 => hz k' p' (List.mem_cons_of_mem i h1) h2 h3) _

/-- C6: at a window boundary, for every subscribed `Percentile(k)` and every
configured percentile `p`, the meter key for `(k, p)` is present in the
rendered meters; and when the histogram percentile lookups that write this
key all yield no value (in particular when the histogram for `k` has no
samples), the value written is 0 — the key is present rather than absent.
The `∀ k' p'` hypothesis of the second part covers channels whose meter key
collides with that of `(k, p)`; for distinct keys it degenerates to the
claim's premise at `(k, p)` alone. -/
theorem percentile_meter_written (tsc t1 : ℕ) (r : Receiver) (k : Channel)
    (p : Percentile) (helapsed : t1 ≤ tsc)
    (hi : Interest.Percentile k ∈ r.interests) (hp : p ∈ r.percentiles) :
    (storeLookup (percKey k p) (check_elapsed tsc r t1).2.meters.data).isSome = true ∧
    ((∀ k' p', Interest.Percentile k' ∈ r.interests → p' ∈ r.percentiles →
        percKey k' p' = percKey k p →
        r.histograms.percentile k' p'.quantile = none) →
      storeLookup (percKey k p) (check_elapsed tsc r t1).2.meters.data = some 0) := by
  have hce : (check_elapsed tsc r t1).2.meters =
      r.interests.foldl
        (renderInterest r.percentiles r.taus r.counters r.histograms r.allans)
        r.meters := by
    simp [check_elapsed, helapsed]
  rw [hce]
  constructor
  · exact isSome_renderFold_mem r.percentiles r.taus r.counters r.histograms
      r.allans k p hp r.interests hi r.meters
  · intro hz
    refine lookup_renderFold_zero_mem r.percentiles r.taus r.counters r.histograms
      r.allans k p hp r.interests hi (fun k' p' h1 h2 h3 => ?_) r.meters
    rw [hz k' p' h1 h2 h3]
    rfl

/-- A receiver subscribed to `Percentile "x"` with one configured percentile
and no histogram samples. -/
def receiverC6 : Receiver :=
  { receiver0 with
    interests := [Interest.Percentile "x"]
    percentiles := [⟨"p50", 0⟩] }

/-- Witness for C6: with no histogram data, the rendered meter for the
subscribed percentile is present with value 0. -/
theorem percentile_meter_written_witness :
    storeLookup (percKey "x" ⟨"p50", 0⟩)
      (check_elapsed 5 receiverC6 3).2.meters.data = some 0 := by
  refine (percentile_meter_written 5 3 receiverC6 "x" ⟨"p50", 0⟩
    (by decide) (by decide) (by decide)).2 ?_
  intro k' p' h1 h2 h3
  have hk : k' = "x" := by
    simpa [receiverC6, Interest.Percentile.injEq] using h1
  have hq : p' = ⟨"p50", (0 : ℚ)⟩ := by
    simpa [receiverC6] using h2
  subst hk
  subst hq
  decide

end Tic
